import Mathlib

/-!
Verification of the wiki taxonomy manager of the `dataikuapi` client
(`dataikuapi/dss/wiki.py`).  The taxonomy is a forest of article nodes
`{"id": <string>, "children": [<node>, ...]}`.  The Python methods
`DSSWikiSettings.__retrieve_article_in_taxonomy__`,
`DSSWikiSettings.move_article_in_taxonomy` and
`DSSWiki.__flatten_taxonomy__` are embedded as pure functions: in-place
mutation of the taxonomy list becomes explicit state passing (each
operation returns the resulting forest), and a raised `DataikuException`
becomes an error value returned next to the post-call state.
-/

namespace DataikuWiki

/-- An article node of the taxonomy: `{"id": ..., "children": [...]}`. -/
inductive Article : Type where
  | node : String → List Article → Article

/-- The `"id"` field of a node. -/
def Article.id : Article → String
  | .node i _ => i

/-- The `"children"` field of a node. -/
def Article.children : Article → List Article
  | .node _ c => c

/-- Embedding of `DSSWiki.__flatten_taxonomy__` (wiki.py lines 43-55),
restricted to the article ids: for each article of the list, append the
article itself, then the flattening of its children. -/
def flatten_taxonomy : List Article → List String
  | [] => []
  | .node i c :: rest => i :: (flatten_taxonomy c ++ flatten_taxonomy rest)

/-- Embedding of `DSSWikiSettings.__retrieve_article_in_taxonomy__`
(wiki.py lines 130-149).  The Python method walks the list `taxonomy`;
for each element it first compares the element's id to `article_id`
(popping it out of the list when `remove` is set), then searches the
element's children recursively, then moves to the next element.  The
in-place mutation is made explicit: the function returns the found node
(or `none`) together with the post-call forest. -/
def retrieveArticleInTaxonomy : List Article → String → Bool → Option Article × List Article
  | [], _, _ => (none, [])
  | .node i c :: rest, articleId, remove =>
    if i = articleId then
      (some (.node i c), if remove then rest else .node i c :: rest)
    else
      match retrieveArticleInTaxonomy c articleId remove with
      | (some found, newChildren) => (some found, .node i newChildren :: rest)
      | (none, _) =>
        let r := retrieveArticleInTaxonomy rest articleId remove
        (r.1, .node i c :: r.2)

/-- The error raised by `move_article_in_taxonomy` (a `DataikuException`
in the Python source): `articleNotFound` is `"Article not found: %s"`
(wiki.py line 162), `parentNotFound` is `"Parent article not found (or
is one of the article descendants): %s"` (line 170).  `keyError` models
the Python `KeyError` raised when the settings dict has no `"taxonomy"`
key. -/
inductive MoveError : Type where
  | articleNotFound : MoveError
  | parentNotFound : MoveError
  | keyError : MoveError
deriving DecidableEq

/-- Model of wiki.py lines 167-171: `__retrieve_article_in_taxonomy__`
with `remove=False` returns a live reference to the first node (in the
same traversal order as the search) whose id equals `parentId`, and
`tax_parent_article["children"].append(tax_article)` then mutates that
node in place.  Functionally: append `child` to the children of the
first matching node, `none` when no node matches.  The lemmas
`appendToFirstMatch_eq_none_iff` and `appendToFirstMatch_parent_found`
below tie this back to `retrieveArticleInTaxonomy`. -/
def appendToFirstMatch : List Article → String → Article → Option (List Article)
  | [], _, _ => none
  | .node i c :: rest, parentId, child =>
    if i = parentId then
      some (.node i (c ++ [child]) :: rest)
    else
      match appendToFirstMatch c parentId child with
      | some newChildren => some (.node i newChildren :: rest)
      | none =>
        match appendToFirstMatch rest parentId child with
        | some newRest => some (.node i c :: newRest)
        | none => none

/-- Embedding of `DSSWikiSettings.move_article_in_taxonomy` (wiki.py
lines 151-171), acting on the taxonomy forest.  Returns the forest held
by the settings after the call together with the raised error, if any:
`copy.deepcopy` becomes holding on to the input value `old_taxonomy`;
on `ArticleNotFound` the state is whatever the removal attempt left (no
restore is performed in that branch); on `ParentNotFound` the state is
reassigned to the deep-copied snapshot. -/
def move_article_in_taxonomy (taxonomy : List Article) (articleId : String)
    (parentArticleId : Option String) : List Article × Option MoveError :=
  let old_taxonomy := taxonomy
  match retrieveArticleInTaxonomy taxonomy articleId true with
  | (none, t) => (t, some .articleNotFound)
  | (some taxArticle, t) =>
    match parentArticleId with
    | none => (t ++ [taxArticle], none)
    | some pid =>
      match appendToFirstMatch t pid taxArticle with
      | none => (old_taxonomy, some .parentNotFound)
      | some t₂ => (t₂, none)

/-- A value of the wiki settings document: the `"taxonomy"` field holds
a forest; every other field is opaque to the taxonomy code and is kept
as an uninterpreted string. -/
inductive SettingsValue : Type where
  | taxVal : List Article → SettingsValue
  | otherVal : String → SettingsValue

/-- Python dict read: first binding of the key, if any. -/
def dictGet : List (String × SettingsValue) → String → Option SettingsValue
  | [], _ => none
  | (k₀, v₀) :: rest, k => if k₀ = k then some v₀ else dictGet rest k

/-- Python dict write: replace the value of an existing key in place
(insertion order kept), append the binding when the key is new. -/
def dictSet : List (String × SettingsValue) → String → SettingsValue → List (String × SettingsValue)
  | [], k, v => [(k, v)]
  | (k₀, v₀) :: rest, k, v => if k₀ = k then (k₀, v) :: rest else (k₀, v₀) :: dictSet rest k v

/-- `DSSWikiSettings.move_article_in_taxonomy` seen at the level of the
whole settings document `self.settings`: the method reads
`self.settings["taxonomy"]`, restructures that forest (in place on
success, by reassignment on rollback), and touches no other key.  When
the `"taxonomy"` key is missing the Python lookup raises `KeyError`
with the dict unchanged. -/
def moveArticleInSettings (settings : List (String × SettingsValue)) (articleId : String)
    (parentArticleId : Option String) : List (String × SettingsValue) × Option MoveError :=
  match dictGet settings "taxonomy" with
  | some (.taxVal t) =>
    let r := move_article_in_taxonomy t articleId parentArticleId
    (dictSet settings "taxonomy" (.taxVal r.1), r.2)
  | _ => (settings, some .keyError)

/-- Defined from the spec's words, as the reference order for the search
and flattening claims: depth-first pre-order enumeration of the nodes of
a forest — roots first, left to right; each node before its children;
a node's children exhausted before its next sibling. -/
def preorderNodes : List Article → List Article
  | [] => []
  | .node i c :: rest => .node i c :: (preorderNodes c ++ preorderNodes rest)

/-- Total number of nodes of a forest, each node counted once. -/
def numNodes : List Article → Nat
  | [] => 0
  | .node _ c :: rest => 1 + numNodes c + numNodes rest

/-- A forest is well-formed when no article id appears twice. -/
def WellFormed (taxonomy : List Article) : Prop :=
  (flatten_taxonomy taxonomy).Nodup

/-! ### Basic lemmas about flattening and the pre-order enumeration -/

theorem flatten_taxonomy_append (s t : List Article) :
    flatten_taxonomy (s ++ t) = flatten_taxonomy s ++ flatten_taxonomy t := by
  induction s using flatten_taxonomy.induct with
  | case1 => simp [flatten_taxonomy]
  | case2 i c rest ihc ihr => simp [flatten_taxonomy, ihr]

theorem flatten_eq_map_preorder (t : List Article) :
    flatten_taxonomy t = (preorderNodes t).map Article.id := by
  induction t using flatten_taxonomy.induct with
  | case1 => simp [flatten_taxonomy, preorderNodes]
  | case2 i c rest ihc ihr => simp [flatten_taxonomy, preorderNodes, ihc, ihr, Article.id]

theorem numNodes_eq_length_flatten (t : List Article) :
    numNodes t = (flatten_taxonomy t).length := by
  induction t using numNodes.induct with
  | case1 => simp [numNodes, flatten_taxonomy]
  | case2 i c rest ihc ihr => simp [numNodes, flatten_taxonomy, ihc, ihr]; omega

/-! ### The retrieval returns the first pre-order match -/

theorem retrieve_fst_eq_findFirst (t : List Article) (articleId : String) (remove : Bool) :
    (retrieveArticleInTaxonomy t articleId remove).1
      = (preorderNodes t).find? (fun a => a.id == articleId) := by
  induction t, articleId, remove using retrieveArticleInTaxonomy.induct with
  | case1 aid r => simp [retrieveArticleInTaxonomy, preorderNodes]
  | case2 c rest aid r =>
    simp [retrieveArticleInTaxonomy, preorderNodes, Article.id]
  | case3 i c rest aid r hne found nc hret ihc =>
    rw [hret] at ihc
    simp only [retrieveArticleInTaxonomy, if_neg hne, hret, preorderNodes]
    rw [List.find?_cons_of_neg _ (by simp [Article.id, hne]), List.find?_append, ← ihc]
    simp
  | case4 i c rest aid r hne snd hret ihc ihr =>
    rw [hret] at ihc
    simp only [retrieveArticleInTaxonomy, if_neg hne, hret, preorderNodes]
    rw [List.find?_cons_of_neg _ (by simp [Article.id, hne]), List.find?_append, ← ihc]
    simpa using ihr

theorem retrieve_fst_eq_none_iff (t : List Article) (articleId : String) (remove : Bool) :
    (retrieveArticleInTaxonomy t articleId remove).1 = none
      ↔ articleId ∉ flatten_taxonomy t := by
  rw [retrieve_fst_eq_findFirst, List.find?_eq_none, flatten_eq_map_preorder]
  simp

theorem retrieve_fst_id {t : List Article} {articleId : String} {remove : Bool} {a : Article}
    (h : (retrieveArticleInTaxonomy t articleId remove).1 = some a) : a.id = articleId := by
  rw [retrieve_fst_eq_findFirst] at h
  simpa using List.find?_some h

theorem retrieve_fst_remove_irrel (t : List Article) (articleId : String) :
    (retrieveArticleInTaxonomy t articleId true).1
      = (retrieveArticleInTaxonomy t articleId false).1 := by
  rw [retrieve_fst_eq_findFirst, retrieve_fst_eq_findFirst]

/-! ### Effect of the retrieval on the forest -/

theorem retrieve_snd_of_false (t : List Article) (articleId : String) (remove : Bool)
    (hrem : remove = false) : (retrieveArticleInTaxonomy t articleId remove).2 = t := by
  induction t, articleId, remove using retrieveArticleInTaxonomy.induct with
  | case1 aid r => simp [retrieveArticleInTaxonomy]
  | case2 c rest aid r =>
    simp [retrieveArticleInTaxonomy, hrem]
  | case3 i c rest aid r hne found nc hret ihc =>
    have hnc : nc = c := by
      have := ihc hrem
      rw [hret] at this
      exact this
    simp only [retrieveArticleInTaxonomy, if_neg hne, hret]
    simp [hnc]
  | case4 i c rest aid r hne snd hret ihc ihr =>
    simp only [retrieveArticleInTaxonomy, if_neg hne, hret]
    simp [ihr hrem]

theorem retrieve_snd_of_none (t : List Article) (articleId : String) (remove : Bool)
    (h : (retrieveArticleInTaxonomy t articleId remove).1 = none) :
    (retrieveArticleInTaxonomy t articleId remove).2 = t := by
  induction t, articleId, remove using retrieveArticleInTaxonomy.induct with
  | case1 aid r => simp [retrieveArticleInTaxonomy]
  | case2 c rest aid r =>
    simp [retrieveArticleInTaxonomy] at h
  | case3 i c rest aid r hne found nc hret ihc =>
    simp only [retrieveArticleInTaxonomy, if_neg hne, hret] at h
    simp at h
  | case4 i c rest aid r hne snd hret ihc ihr =>
    simp only [retrieveArticleInTaxonomy, if_neg hne, hret] at h ⊢
    simp [ihr h]

theorem retrieve_of_not_mem (t : List Article) (articleId : String) (remove : Bool)
    (h : articleId ∉ flatten_taxonomy t) :
    retrieveArticleInTaxonomy t articleId remove = (none, t) := by
  have h1 : (retrieveArticleInTaxonomy t articleId remove).1 = none :=
    (retrieve_fst_eq_none_iff t articleId remove).mpr h
  have h2 := retrieve_snd_of_none t articleId remove h1
  exact Prod.ext_iff.mpr ⟨h1, h2⟩

/-- Structural effect of a successful retrieval: the flattening of the
input forest splits around the block of the found subtree, and when
`remove` is set the flattening of the output forest is exactly the two
surrounding parts. -/
theorem retrieve_some_flatten (t : List Article) (articleId : String) (remove : Bool) :
    ∀ a t₂, retrieveArticleInTaxonomy t articleId remove = (some a, t₂) →
    ∃ l₁ l₂, flatten_taxonomy t = l₁ ++ (a.id :: flatten_taxonomy a.children) ++ l₂ ∧
      (remove = true → flatten_taxonomy t₂ = l₁ ++ l₂) := by
  induction t, articleId, remove using retrieveArticleInTaxonomy.induct with
  | case1 aid r =>
    intro a t₂ h
    simp [retrieveArticleInTaxonomy] at h
  | case2 c rest aid r =>
    intro a t₂ h
    simp only [retrieveArticleInTaxonomy, if_pos rfl, Prod.mk.injEq, Option.some.injEq] at h
    obtain ⟨rfl, rfl⟩ := h
    refine ⟨[], flatten_taxonomy rest, ?_, ?_⟩
    · simp [flatten_taxonomy, Article.id, Article.children]
    · intro hrem
      simp [hrem, flatten_taxonomy]
  | case3 i c rest aid r hne found nc hret ihc =>
    intro a t₂ h
    simp only [retrieveArticleInTaxonomy, if_neg hne, hret, Prod.mk.injEq,
      Option.some.injEq] at h
    obtain ⟨rfl, rfl⟩ := h
    obtain ⟨l₁, l₂, hc, hc₂⟩ := ihc found nc hret
    refine ⟨i :: l₁, l₂ ++ flatten_taxonomy rest, ?_, ?_⟩
    · simp [flatten_taxonomy, hc]
    · intro hrem
      simp [flatten_taxonomy, hc₂ hrem]
  | case4 i c rest aid r hne snd hret ihc ihr =>
    intro a t₂ h
    simp only [retrieveArticleInTaxonomy, if_neg hne, hret, Prod.mk.injEq] at h
    obtain ⟨h1, rfl⟩ := h
    obtain ⟨l₁, l₂, hr, hr₂⟩ :=
      ihr a (retrieveArticleInTaxonomy rest aid r).2 (Prod.ext_iff.mpr ⟨h1, rfl⟩)
    refine ⟨i :: flatten_taxonomy c ++ l₁, l₂, ?_, ?_⟩
    · simp [flatten_taxonomy, hr]
    · intro hrem
      simp [flatten_taxonomy, hr₂ hrem]

/-! ### Lemmas about appending under the first matching parent -/

theorem flatten_singleton (a : Article) :
    flatten_taxonomy [a] = a.id :: flatten_taxonomy a.children := by
  cases a with
  | node i c => simp [flatten_taxonomy, Article.id, Article.children]

theorem appendToFirstMatch_eq_none_iff (t : List Article) (parentId : String) (child : Article) :
    appendToFirstMatch t parentId child = none ↔ parentId ∉ flatten_taxonomy t := by
  induction t, parentId, child using appendToFirstMatch.induct with
  | case1 pid ch => simp [appendToFirstMatch, flatten_taxonomy]
  | case2 c rest pid ch => simp [appendToFirstMatch, flatten_taxonomy]
  | case3 i c rest pid ch hne nc hc ihc =>
    have hpc : pid ∈ flatten_taxonomy c := by
      by_contra hn
      rw [ihc.mpr hn] at hc
      cases hc
    simp only [appendToFirstMatch, if_neg hne, hc]
    simp [flatten_taxonomy, hpc]
  | case4 i c rest pid ch hne hc nr hr ihc ihr =>
    have hpr : pid ∈ flatten_taxonomy rest := by
      by_contra hn
      rw [ihr.mpr hn] at hr
      cases hr
    simp only [appendToFirstMatch, if_neg hne, hc, hr]
    simp [flatten_taxonomy, hpr]
  | case5 i c rest pid ch hne hc hr ihc ihr =>
    simp only [appendToFirstMatch, if_neg hne, hc, hr]
    simp [flatten_taxonomy, ihc.mp hc, ihr.mp hr]
    exact fun h => hne h.symm

theorem appendToFirstMatch_flatten (t : List Article) (parentId : String) (child : Article) :
    ∀ t₂, appendToFirstMatch t parentId child = some t₂ →
    ∃ l₁ l₂, flatten_taxonomy t = l₁ ++ l₂ ∧
      flatten_taxonomy t₂ = l₁ ++ (child.id :: flatten_taxonomy child.children) ++ l₂ := by
  induction t, parentId, child using appendToFirstMatch.induct with
  | case1 pid ch =>
    intro t₂ h
    simp [appendToFirstMatch] at h
  | case2 c rest pid ch =>
    intro t₂ h
    simp [appendToFirstMatch] at h
    subst h
    refine ⟨pid :: flatten_taxonomy c, flatten_taxonomy rest, ?_, ?_⟩
    · simp [flatten_taxonomy]
    · simp [flatten_taxonomy, flatten_taxonomy_append, flatten_singleton]
  | case3 i c rest pid ch hne nc hc ihc =>
    intro t₂ h
    simp only [appendToFirstMatch, if_neg hne, hc, Option.some.injEq] at h
    subst h
    obtain ⟨l₁, l₂, h1, h2⟩ := ihc nc hc
    refine ⟨i :: l₁, l₂ ++ flatten_taxonomy rest, ?_, ?_⟩
    · simp [flatten_taxonomy, h1]
    · simp [flatten_taxonomy, h2]
  | case4 i c rest pid ch hne hc nr hr ihc ihr =>
    intro t₂ h
    simp only [appendToFirstMatch, if_neg hne, hc, hr, Option.some.injEq] at h
    subst h
    obtain ⟨l₁, l₂, h1, h2⟩ := ihr nr hr
    refine ⟨i :: flatten_taxonomy c ++ l₁, l₂, ?_, ?_⟩
    · simp [flatten_taxonomy, h1]
    · simp [flatten_taxonomy, h2]
  | case5 i c rest pid ch hne hc hr ihc ihr =>
    intro t₂ h
    simp [appendToFirstMatch, if_neg hne, hc, hr] at h

theorem appendToFirstMatch_parent_found (t : List Article) (parentId : String) (child : Article) :
    ∀ t₂, appendToFirstMatch t parentId child = some t₂ →
    ∃ pc, (retrieveArticleInTaxonomy t parentId false).1 = some (.node parentId pc) ∧
      (retrieveArticleInTaxonomy t₂ parentId false).1
        = some (.node parentId (pc ++ [child])) := by
  induction t, parentId, child using appendToFirstMatch.induct with
  | case1 pid ch =>
    intro t₂ h
    simp [appendToFirstMatch] at h
  | case2 c rest pid ch =>
    intro t₂ h
    simp [appendToFirstMatch] at h
    subst h
    exact ⟨c, by simp [retrieveArticleInTaxonomy], by simp [retrieveArticleInTaxonomy]⟩
  | case3 i c rest pid ch hne nc hc ihc =>
    intro t₂ h
    simp only [appendToFirstMatch, if_neg hne, hc, Option.some.injEq] at h
    subst h
    obtain ⟨pc, h1, h2⟩ := ihc nc hc
    have hp1 : retrieveArticleInTaxonomy c pid false = (some (.node pid pc), c) :=
      Prod.ext_iff.mpr ⟨h1, retrieve_snd_of_false c pid false rfl⟩
    have hp2 : retrieveArticleInTaxonomy nc pid false
        = (some (.node pid (pc ++ [ch])), nc) :=
      Prod.ext_iff.mpr ⟨h2, retrieve_snd_of_false nc pid false rfl⟩
    refine ⟨pc, ?_, ?_⟩
    · simp [retrieveArticleInTaxonomy, if_neg hne, hp1]
    · simp [retrieveArticleInTaxonomy, if_neg hne, hp2]
  | case4 i c rest pid ch hne hc nr hr ihc ihr =>
    intro t₂ h
    simp only [appendToFirstMatch, if_neg hne, hc, hr, Option.some.injEq] at h
    subst h
    obtain ⟨pc, h1, h2⟩ := ihr nr hr
    have hcnone : retrieveArticleInTaxonomy c pid false = (none, c) :=
      retrieve_of_not_mem c pid false ((appendToFirstMatch_eq_none_iff c pid ch).mp hc)
    refine ⟨pc, ?_, ?_⟩
    · simp [retrieveArticleInTaxonomy, if_neg hne, hcnone, h1]
    · simp [retrieveArticleInTaxonomy, if_neg hne, hcnone, h2]
  | case5 i c rest pid ch hne hc hr ihc ihr =>
    intro t₂ h
    simp [appendToFirstMatch, if_neg hne, hc, hr] at h

/-! ### Helper lemmas about the move operation -/

theorem move_parentNotFound_of_not_mem (F : List Article) (articleId P : String)
    (a : Article) (F₂ : List Article)
    (hret : retrieveArticleInTaxonomy F articleId true = (some a, F₂))
    (hP : P ∉ flatten_taxonomy F₂) :
    move_article_in_taxonomy F articleId (some P) = (F, some MoveError.parentNotFound) := by
  have happ : appendToFirstMatch F₂ P a = none :=
    (appendToFirstMatch_eq_none_iff F₂ P a).mpr hP
  simp only [move_article_in_taxonomy, hret, happ]

/-- After a successful removal from a well-formed forest, neither the
removed article's own id nor any id of its descendants is left in the
remaining forest. -/
theorem subtree_not_mem_after_remove (F : List Article) (articleId D : String)
    (a : Article) (F₂ : List Article)
    (hwf : WellFormed F)
    (hret : retrieveArticleInTaxonomy F articleId true = (some a, F₂))
    (hD : D = a.id ∨ D ∈ flatten_taxonomy a.children) :
    D ∉ flatten_taxonomy F₂ := by
  obtain ⟨l₁, l₂, hsplit, hrem⟩ := retrieve_some_flatten F articleId true a F₂ hret
  have hF₂ : flatten_taxonomy F₂ = l₁ ++ l₂ := hrem rfl
  have hnd : (l₁ ++ ((a.id :: flatten_taxonomy a.children) ++ l₂)).Nodup := by
    have h := hwf
    rw [WellFormed, hsplit] at h
    simpa [List.append_assoc] using h
  have hDb : D ∈ a.id :: flatten_taxonomy a.children := by
    rcases hD with rfl | h
    · exact List.mem_cons_self _ _
    · exact List.mem_cons_of_mem _ h
  rw [List.nodup_append] at hnd
  obtain ⟨h1, h2, hdisj⟩ := hnd
  rw [List.nodup_append] at h2
  obtain ⟨hb, h3, hdisj₂⟩ := h2
  rw [hF₂]
  intro hmem
  rcases List.mem_append.mp hmem with hx | hx
  · exact hdisj hx (List.mem_append_left _ hDb)
  · exact hdisj₂ hDb hx

theorem dictGet_dictSet_ne (s : List (String × SettingsValue)) (k₀ : String)
    (v : SettingsValue) (k : String) (hk : k ≠ k₀) :
    dictGet (dictSet s k₀ v) k = dictGet s k := by
  have hk' : ¬k₀ = k := Ne.symm hk
  induction s with
  | nil => simp [dictSet, dictGet, hk']
  | cons kv rest ih =>
    obtain ⟨k₁, v₁⟩ := kv
    by_cases h : k₁ = k₀
    · subst h
      simp [dictSet, dictGet, hk']
    · simp [dictSet, dictGet, h, ih]

theorem perm_block_shift (B l₁ l₂ : List String) :
    ((l₁ ++ l₂) ++ B).Perm (l₁ ++ B ++ l₂) := by
  have h2 : (l₂ ++ B).Perm (B ++ l₂) := List.perm_append_comm
  have h3 : (l₁ ++ (l₂ ++ B)).Perm (l₁ ++ (B ++ l₂)) := List.Perm.append_left _ h2
  rw [← List.append_assoc, ← List.append_assoc] at h3
  exact h3

/-! ### The claims -/

/-- C1: on a well-formed forest, when the requested new parent id does
not occur in the forest left after detaching the moved article's
subtree, `move_article_in_taxonomy` raises `ParentNotFound` and the
taxonomy held by the store is exactly the full pre-operation snapshot
`F`. -/
theorem claim_C1_parent_not_found_full_rollback
    (F : List Article) (articleId P : String) (a : Article) (F₂ : List Article)
    (hwf : WellFormed F)
    (hret : retrieveArticleInTaxonomy F articleId true = (some a, F₂))
    (hP : P ∉ flatten_taxonomy F₂) :
    move_article_in_taxonomy F articleId (some P) = (F, some MoveError.parentNotFound) :=
  move_parentNotFound_of_not_mem F articleId P a F₂ hret hP

/-- C2: when the moved article id occurs nowhere in the forest,
`move_article_in_taxonomy` raises `ArticleNotFound` and leaves the
forest completely unchanged, whatever the requested parent. -/
theorem claim_C2_article_not_found_unchanged
    (F : List Article) (A : String) (p : Option String)
    (hA : A ∉ flatten_taxonomy F) :
    move_article_in_taxonomy F A p = (F, some MoveError.articleNotFound) := by
  have h := retrieve_of_not_mem F A true hA
  simp only [move_article_in_taxonomy, h]

/-- C3: on a well-formed forest, moving an article under itself or under
one of its own strict descendants raises `ParentNotFound` (the target
was detached together with the moved subtree) and rolls the forest back
to its pre-call state. -/
theorem claim_C3_move_under_descendant_rolls_back
    (F : List Article) (A D : String) (a : Article) (F₂ : List Article)
    (hwf : WellFormed F)
    (hret : retrieveArticleInTaxonomy F A true = (some a, F₂))
    (hD : D = A ∨ D ∈ flatten_taxonomy a.children) :
    move_article_in_taxonomy F A (some D) = (F, some MoveError.parentNotFound) := by
  have haid : a.id = A := retrieve_fst_id (by rw [hret])
  have hD' : D = a.id ∨ D ∈ flatten_taxonomy a.children := by
    rcases hD with rfl | h
    · exact Or.inl haid.symm
    · exact Or.inr h
  exact move_parentNotFound_of_not_mem F A D a F₂ hret
    (subtree_not_mem_after_remove F A D a F₂ hwf hret hD')

/-- C4: on a well-formed forest containing the requested id, the removal
variant of the search returns the node carrying that id, the id is gone
from the remaining forest, and the node count drops by exactly one plus
the number of descendants of the removed node. -/
theorem claim_C4_find_remove_detaches_whole_subtree
    (F : List Article) (articleId : String)
    (hwf : WellFormed F) (hmem : articleId ∈ flatten_taxonomy F) :
    ∃ a F₂, retrieveArticleInTaxonomy F articleId true = (some a, F₂) ∧
      a.id = articleId ∧ articleId ∉ flatten_taxonomy F₂ ∧
      numNodes F = numNodes F₂ + 1 + numNodes a.children := by
  obtain ⟨a, ha⟩ : ∃ a, (retrieveArticleInTaxonomy F articleId true).1 = some a := by
    rcases h : (retrieveArticleInTaxonomy F articleId true).1 with _ | a
    · exact absurd ((retrieve_fst_eq_none_iff F articleId true).mp h) (by simpa using hmem)
    · exact ⟨a, rfl⟩
  have hpair : retrieveArticleInTaxonomy F articleId true
      = (some a, (retrieveArticleInTaxonomy F articleId true).2) :=
    Prod.ext_iff.mpr ⟨ha, rfl⟩
  refine ⟨a, (retrieveArticleInTaxonomy F articleId true).2, hpair, retrieve_fst_id ha, ?_, ?_⟩
  · exact subtree_not_mem_after_remove F articleId articleId a _ hwf hpair
      (Or.inl (retrieve_fst_id ha).symm)
  · obtain ⟨l₁, l₂, hsplit, hrem⟩ := retrieve_some_flatten F articleId true a _ hpair
    have hF₂ := hrem rfl
    rw [numNodes_eq_length_flatten, numNodes_eq_length_flatten,
      numNodes_eq_length_flatten, hsplit, hF₂]
    simp
    omega

/-- C5: on a well-formed forest containing the requested id, the
non-removing search returns a node carrying that id and leaves the
forest unchanged; when the id is absent, the search returns the `none`
sentinel (and leaves the forest unchanged) for both values of the
`remove` flag. -/
theorem claim_C5_find_no_remove_and_sentinel (F : List Article) (articleId : String) :
    (WellFormed F → articleId ∈ flatten_taxonomy F →
      ∃ a, retrieveArticleInTaxonomy F articleId false = (some a, F) ∧ a.id = articleId) ∧
    (articleId ∉ flatten_taxonomy F → ∀ remove,
      retrieveArticleInTaxonomy F articleId remove = (none, F)) := by
  constructor
  · intro hwf hmem
    obtain ⟨a, ha⟩ : ∃ a, (retrieveArticleInTaxonomy F articleId false).1 = some a := by
      rcases h : (retrieveArticleInTaxonomy F articleId false).1 with _ | a
      · exact absurd ((retrieve_fst_eq_none_iff F articleId false).mp h) (by simpa using hmem)
      · exact ⟨a, rfl⟩
    exact ⟨a, Prod.ext_iff.mpr ⟨ha, retrieve_snd_of_false F articleId false rfl⟩,
      retrieve_fst_id ha⟩
  · intro hmem remove
    exact retrieve_of_not_mem F articleId remove hmem

/-- C6: on any forest (duplicate ids allowed), the search — with or
without removal — returns exactly the first node of the depth-first
pre-order enumeration of the forest whose id matches the requested
one. -/
theorem claim_C6_search_is_first_preorder_match
    (F : List Article) (articleId : String) (remove : Bool) :
    (retrieveArticleInTaxonomy F articleId remove).1
      = (preorderNodes F).find? (fun a => a.id == articleId) :=
  retrieve_fst_eq_findFirst F articleId remove

/-- C7: on a well-formed forest containing the requested id, moving with
no parent given succeeds; the moved node is appended as the last root,
its subtree is exactly the subtree it had in the input forest, and all
other nodes keep their relative order. -/
theorem claim_C7_move_to_root_level
    (F : List Article) (articleId : String)
    (hwf : WellFormed F) (hmem : articleId ∈ flatten_taxonomy F) :
    ∃ a F₂ l₁ l₂,
      move_article_in_taxonomy F articleId none = (F₂ ++ [a], none) ∧
      a.id = articleId ∧
      (retrieveArticleInTaxonomy F articleId false).1 = some a ∧
      flatten_taxonomy F = l₁ ++ (a.id :: flatten_taxonomy a.children) ++ l₂ ∧
      flatten_taxonomy (F₂ ++ [a]) = (l₁ ++ l₂) ++ (a.id :: flatten_taxonomy a.children) := by
  rcases hret : retrieveArticleInTaxonomy F articleId true with ⟨fst, F₂⟩
  rcases fst with _ | a
  · exact absurd ((retrieve_fst_eq_none_iff F articleId true).mp (by rw [hret]))
      (by simpa using hmem)
  · obtain ⟨l₁, l₂, hsplit, hrem⟩ := retrieve_some_flatten F articleId true a F₂ hret
    refine ⟨a, F₂, l₁, l₂, ?_, retrieve_fst_id (by rw [hret]), ?_, hsplit, ?_⟩
    · simp only [move_article_in_taxonomy, hret]
    · rw [← retrieve_fst_remove_irrel, hret]
    · rw [flatten_taxonomy_append, hrem rfl, flatten_singleton]

/-- C8: the flattening of a forest lists the article ids in depth-first
pre-order, and every node of the forest contributes exactly one element
of the flattened sequence. -/
theorem claim_C8_flatten_is_preorder (F : List Article) :
    flatten_taxonomy F = (preorderNodes F).map Article.id ∧
    (flatten_taxonomy F).length = numNodes F :=
  ⟨flatten_eq_map_preorder F, (numNodes_eq_length_flatten F).symm⟩

/-- C9: `move_article_in_taxonomy` changes at most the `"taxonomy"`
field of the settings document: every other field reads back unchanged
after the call, whether the move succeeded or failed. -/
theorem claim_C9_settings_other_fields_untouched
    (settings : List (String × SettingsValue)) (articleId : String)
    (parentArticleId : Option String) (k : String) (hk : k ≠ "taxonomy") :
    dictGet (moveArticleInSettings settings articleId parentArticleId).1 k
      = dictGet settings k := by
  rcases hts : dictGet settings "taxonomy" with _ | v
  · simp [moveArticleInSettings, hts]
  · rcases v with t | s
    · simp only [moveArticleInSettings, hts]
      exact dictGet_dictSet_ne settings "taxonomy" _ k hk
    · simp [moveArticleInSettings, hts]

/-- C10: on a well-formed forest, a successful move preserves the
multiset of article ids, and when a parent was requested the moved
subtree becomes the last child of that parent in the resulting
forest. -/
theorem claim_C10_successful_move_preserves_ids
    (F : List Article) (articleId : String) (pid : Option String) (t₂ : List Article)
    (hwf : WellFormed F)
    (hmv : move_article_in_taxonomy F articleId pid = (t₂, none)) :
    (flatten_taxonomy t₂).Perm (flatten_taxonomy F) ∧
    (∀ p, pid = some p → ∃ a pa,
      (retrieveArticleInTaxonomy F articleId false).1 = some a ∧
      (retrieveArticleInTaxonomy t₂ p false).1 = some pa ∧
      pa.children.getLast? = some a) := by
  rcases hret : retrieveArticleInTaxonomy F articleId true with ⟨fst, F₂⟩
  rcases fst with _ | a
  · simp only [move_article_in_taxonomy, hret] at hmv
    exact absurd (congrArg Prod.snd hmv) (by simp)
  · have hfstF : (retrieveArticleInTaxonomy F articleId false).1 = some a := by
      rw [← retrieve_fst_remove_irrel, hret]
    obtain ⟨l₁, l₂, hsplit, hrem⟩ := retrieve_some_flatten F articleId true a F₂ hret
    have hF₂ : flatten_taxonomy F₂ = l₁ ++ l₂ := hrem rfl
    rcases pid with _ | p
    · simp only [move_article_in_taxonomy, hret] at hmv
      have ht₂ : F₂ ++ [a] = t₂ := (Prod.ext_iff.mp hmv).1
      subst ht₂
      refine ⟨?_, by intro p hp; cases hp⟩
      rw [flatten_taxonomy_append, flatten_singleton, hF₂, hsplit]
      exact perm_block_shift _ l₁ l₂
    · simp only [move_article_in_taxonomy, hret] at hmv
      rcases happ : appendToFirstMatch F₂ p a with _ | t₃
      · rw [happ] at hmv
        exact absurd (congrArg Prod.snd hmv) (by simp)
      · rw [happ] at hmv
        have ht₂ : t₃ = t₂ := (Prod.ext_iff.mp hmv).1
        subst ht₂
        obtain ⟨m₁, m₂, hm, hm₂⟩ := appendToFirstMatch_flatten F₂ p a t₃ happ
        obtain ⟨pc, hpc₁, hpc₂⟩ := appendToFirstMatch_parent_found F₂ p a t₃ happ
        constructor
        · rw [hm₂, hsplit]
          have hperm₁ : (m₁ ++ (a.id :: flatten_taxonomy a.children) ++ m₂).Perm
              ((m₁ ++ m₂) ++ (a.id :: flatten_taxonomy a.children)) :=
            (perm_block_shift _ m₁ m₂).symm
          have heq : m₁ ++ m₂ = l₁ ++ l₂ := by rw [← hm, hF₂]
          rw [heq] at hperm₁
          exact hperm₁.trans (perm_block_shift _ l₁ l₂)
        · intro q hq
          obtain rfl : p = q := by
            cases hq
            rfl
          refine ⟨a, Article.node p (pc ++ [a]), hfstF, hpc₂, ?_⟩
          simp [Article.children, List.getLast?_concat]

/-! ### Concrete witnesses, on the example forest of the spec -/

/-- The example forest of the spec:
`[{id:"A", children:[{id:"B", children:[]}]}, {id:"C", children:[]}]`. -/
def sampleForest : List Article := [.node "A" [.node "B" []], .node "C" []]

/-- An example settings document: the taxonomy plus an opaque field. -/
def sampleSettings : List (String × SettingsValue) :=
  [("taxonomy", .taxVal sampleForest), ("homeArticleId", .otherVal "A")]

/-- Witness for C1: moving `B` under the absent id `Z` rolls back. -/
theorem claim_C1_witness :
    move_article_in_taxonomy sampleForest "B" (some "Z")
      = (sampleForest, some MoveError.parentNotFound) :=
  claim_C1_parent_not_found_full_rollback sampleForest "B" "Z" (.node "B" [])
    [.node "A" [], .node "C" []]
    (by simp [WellFormed, sampleForest, flatten_taxonomy])
    (by simp [sampleForest, retrieveArticleInTaxonomy])
    (by simp [flatten_taxonomy])

/-- Witness for C2: moving the absent id `Z` fails and changes nothing. -/
theorem claim_C2_witness :
    move_article_in_taxonomy sampleForest "Z" (some "A")
      = (sampleForest, some MoveError.articleNotFound) :=
  claim_C2_article_not_found_unchanged sampleForest "Z" (some "A")
    (by simp [sampleForest, flatten_taxonomy])

/-- Witness for C3: moving `A` under its descendant `B` rolls back. -/
theorem claim_C3_witness :
    move_article_in_taxonomy sampleForest "A" (some "B")
      = (sampleForest, some MoveError.parentNotFound) :=
  claim_C3_move_under_descendant_rolls_back sampleForest "A" "B"
    (.node "A" [.node "B" []]) [.node "C" []]
    (by simp [WellFormed, sampleForest, flatten_taxonomy])
    (by simp [sampleForest, retrieveArticleInTaxonomy])
    (Or.inr (by simp [Article.children, flatten_taxonomy]))

/-- Witness for C4: removing `B` from the example forest. -/
theorem claim_C4_witness :
    ∃ a F₂, retrieveArticleInTaxonomy sampleForest "B" true = (some a, F₂) ∧
      a.id = "B" ∧ "B" ∉ flatten_taxonomy F₂ ∧
      numNodes sampleForest = numNodes F₂ + 1 + numNodes a.children :=
  claim_C4_find_remove_detaches_whole_subtree sampleForest "B"
    (by simp [WellFormed, sampleForest, flatten_taxonomy])
    (by simp [sampleForest, flatten_taxonomy])

/-- Witness for C5: finding `B` without removal, and the `none` sentinel
for the absent id `Z`. -/
theorem claim_C5_witness :
    (∃ a, retrieveArticleInTaxonomy sampleForest "B" false = (some a, sampleForest) ∧
      a.id = "B") ∧
    retrieveArticleInTaxonomy sampleForest "Z" true = (none, sampleForest) :=
  ⟨(claim_C5_find_no_remove_and_sentinel sampleForest "B").1
      (by simp [WellFormed, sampleForest, flatten_taxonomy])
      (by simp [sampleForest, flatten_taxonomy]),
    (claim_C5_find_no_remove_and_sentinel sampleForest "Z").2
      (by simp [sampleForest, flatten_taxonomy]) true⟩

/-- Witness for C7: moving `B` to root level in the example forest. -/
theorem claim_C7_witness :
    ∃ a F₂ l₁ l₂,
      move_article_in_taxonomy sampleForest "B" none = (F₂ ++ [a], none) ∧
      a.id = "B" ∧
      (retrieveArticleInTaxonomy sampleForest "B" false).1 = some a ∧
      flatten_taxonomy sampleForest = l₁ ++ (a.id :: flatten_taxonomy a.children) ++ l₂ ∧
      flatten_taxonomy (F₂ ++ [a]) = (l₁ ++ l₂) ++ (a.id :: flatten_taxonomy a.children) :=
  claim_C7_move_to_root_level sampleForest "B"
    (by simp [WellFormed, sampleForest, flatten_taxonomy])
    (by simp [sampleForest, flatten_taxonomy])

/-- Witness for C9: the opaque `homeArticleId` field reads back
unchanged across a move. -/
theorem claim_C9_witness :
    dictGet (moveArticleInSettings sampleSettings "B" (some "C")).1 "homeArticleId"
      = dictGet sampleSettings "homeArticleId" :=
  claim_C9_settings_other_fields_untouched sampleSettings "B" (some "C") "homeArticleId"
    (by decide)

/-- Witness for C10: the spec example `move(F, "B", "C")`, whose result
is `[{id:"A"}, {id:"C", children:[{id:"B"}]}]`. -/
theorem claim_C10_witness :
    (flatten_taxonomy [Article.node "A" [], Article.node "C" [Article.node "B" []]]).Perm
      (flatten_taxonomy sampleForest) ∧
    (∀ p, (some "C" : Option String) = some p → ∃ a pa,
      (retrieveArticleInTaxonomy sampleForest "B" false).1 = some a ∧
      (retrieveArticleInTaxonomy [Article.node "A" [], Article.node "C" [Article.node "B" []]]
        p false).1 = some pa ∧
      pa.children.getLast? = some a) :=
  claim_C10_successful_move_preserves_ids sampleForest "B" (some "C")
    [Article.node "A" [], Article.node "C" [Article.node "B" []]]
    (by simp [WellFormed, sampleForest, flatten_taxonomy])
    (by simp [sampleForest, move_article_in_taxonomy, retrieveArticleInTaxonomy,
      appendToFirstMatch])

end DataikuWiki
